import Mathlib

/-! The spin lock wrapper of `src/libstrongswan/threading/spinlock.c`.

A shallow embedding of `lock`, `unlock`, `destroy` and `spinlock_create`, with the
two build variants selected by `_POSIX_SPIN_LOCKS`, followed by the properties
settled about them.

The C functions act on the instance `this` and on the rest of the process. Both are
passed explicitly: the instance as a value of `private_spinlock_t`, the rest of the
process as a `World` that records, in program order, every action the layer performs.
What the layer calls but does not define (the pthread primitive, the wrapped mutex,
`strerror`, the clock) is an `Env` of functions that every theorem quantifies over,
unless it names the instance `posix`. Threads that share one instance are a list of
program positions stepped in the order of a schedule.
-/

namespace Spinlock

/-! ## Data model -/

/-- Build-time choice made by `#ifdef _POSIX_SPIN_LOCKS`: `NativeSpin` when the flag is
defined, `MutexFallback` otherwise. -/
inductive Strategy where
  | NativeSpin
  | MutexFallback
  deriving DecidableEq, Repr

/-- Modelled from the spec: the state held by the wrapped primitive (`pthread_spinlock_t`
comes from `<pthread.h>`, the mutex from `mutex.h`); section 3 gives it as
`Unlocked` / `Locked`. -/
inductive LockState where
  | Unlocked
  | Locked
  deriving DecidableEq, Repr

/-- The wrapped pthread spin lock, field `spinlock` of `private_spinlock_t`. -/
abbrev pthread_spinlock_t := LockState

/-- Modelled from the spec: the object returned by `mutex_create` (`mutex.h`, `mutex.c`):
a separately allocated blocking mutex. -/
structure mutex_t where
  addr : Nat
  state : LockState
  deriving DecidableEq, Repr

/-- Modelled from the spec: `lock_profile_t` of `lock_profiler.h`, the running total of
wait time and the acquisition counter of section 4.2. -/
structure lock_profile_t where
  waited : Int
  locked : Nat
  deriving DecidableEq, Repr

/-- Debug group passed to `DBG1`; this file uses `DBG_LIB` only. -/
inductive debug_t where
  | DBG_LIB
  deriving DecidableEq, Repr

/-- The struct `private_spinlock_t`. Its fields depend on `_POSIX_SPIN_LOCKS`: with the flag
the struct holds `spinlock` and `profile`, without it `mutex`. `addr` is the address of the
allocated instance. -/
inductive private_spinlock_t where
  | native (addr : Nat) (spinlock : pthread_spinlock_t) (profile : lock_profile_t)
  | fallback (addr : Nat) (mutex : mutex_t)
  deriving DecidableEq, Repr

/-- Everything the layer does to the rest of the process, one constructor per call or
statement of `spinlock.c`. -/
inductive Action where
  | malloc (addr : Nat)
  | free (addr : Nat)
  | pthread_spin_init (addr : Nat)
  | pthread_spin_lock (addr : Nat) (ret : Int)
  | pthread_spin_unlock (addr : Nat) (ret : Int)
  | pthread_spin_destroy (addr : Nat)
  | profiler_init (addr : Nat)
  | profiler_start (addr : Nat) (stamp : Int)
  | profiler_end (addr : Nat) (stamp : Int)
  | profiler_cleanup (addr : Nat)
  | dbg (group : debug_t) (level : Nat) (fmt : String) (args : List String)
  | mutex_create (addr : Nat)
  | mutex_lock (addr : Nat)
  | mutex_unlock (addr : Nat)
  | mutex_destroy (addr : Nat)
  deriving DecidableEq, Repr

/-- A resource that is live between its acquisition and its release. -/
inductive Resource where
  | instance_ (addr : Nat)
  | spinlock (addr : Nat)
  | profile (addr : Nat)
  | mutex (addr : Nat)
  deriving DecidableEq, Repr

/-- The rest of the process: the actions performed so far (oldest first), the live
resources, the next address the allocator hands out, and the number of clock readings
taken so far. -/
structure World where
  trace : List Action
  live : List Resource
  brk : Nat
  ticks : Nat
  deriving DecidableEq, Repr

/-- The resource an action acquires, if any. -/
def Action.acquires : Action → Option Resource
  | .malloc a => some (.instance_ a)
  | .pthread_spin_init a => some (.spinlock a)
  | .profiler_init a => some (.profile a)
  | .mutex_create a => some (.mutex a)
  | _ => none

/-- The resource an action releases, if any. -/
def Action.releases : Action → Option Resource
  | .free a => some (.instance_ a)
  | .pthread_spin_destroy a => some (.spinlock a)
  | .profiler_cleanup a => some (.profile a)
  | .mutex_destroy a => some (.mutex a)
  | _ => none

/-- The live resources after an action. -/
def Action.apply (a : Action) (live : List Resource) : List Resource :=
  match a.acquires, a.releases with
  | some r, _ => r :: live
  | none, some r => live.erase r
  | none, none => live

/-- Perform an action: append it to the trace and update the live resources. -/
def World.emit (w : World) (a : Action) : World :=
  { w with trace := w.trace ++ [a], live := a.apply w.live }

/-- What the layer calls but does not define. `pthread_spin_lock` and `mutex_lock` return
`none` when the call never returns to its caller; the results may depend on everything
that happened before (the `World`). `time_monotonic k` is the `k`-th reading of the
clock. `LOCK_PROFILER` is the build flag that enables the profiler of
`lock_profiler.h`. -/
structure Env where
  LOCK_PROFILER : Bool
  time_monotonic : Nat → Int
  strerror : Int → String
  pthread_spin_lock : World → pthread_spinlock_t → Option (Int × pthread_spinlock_t)
  pthread_spin_unlock : World → pthread_spinlock_t → Int × pthread_spinlock_t
  mutex_lock : World → LockState → Option LockState
  mutex_unlock : World → LockState → LockState

/-! ## Callees defined outside `spinlock.c`, modelled from the spec -/

/-- Modelled from the spec: `pthread_spin_init` leaves the primitive in the initial state
`Unlocked` (section 3, lifecycle). -/
def pthread_spin_init : pthread_spinlock_t := .Unlocked

/-- Modelled from the spec: `mutex_create` of `mutex.c` allocates a mutex in the initial
state `Unlocked`; its argument `MUTEX_TYPE_DEFAULT` selects the plain blocking mutex. -/
def mutex_create (w : World) : mutex_t × World :=
  ({ addr := w.brk, state := .Unlocked },
   ({ w with brk := w.brk + 1 }).emit (.mutex_create w.brk))

/-- Modelled from the spec: `profiler_init` of `lock_profiler.h` starts the running total and
the counter at zero; without `LOCK_PROFILER` it does nothing. -/
def profiler_init (os : Env) (addr : Nat) (w : World) : lock_profile_t × World :=
  if os.LOCK_PROFILER then
    ({ waited := 0, locked := 0 }, w.emit (.profiler_init addr))
  else
    ({ waited := 0, locked := 0 }, w)

/-- Modelled from the spec: `profiler_start` of `lock_profiler.h` records a start timestamp;
without `LOCK_PROFILER` it does nothing. -/
def profiler_start (os : Env) (addr : Nat) (w : World) : Int × World :=
  if os.LOCK_PROFILER then
    (os.time_monotonic w.ticks,
     ({ w with ticks := w.ticks + 1 }).emit (.profiler_start addr (os.time_monotonic w.ticks)))
  else
    (0, w)

/-- Modelled from the spec: `profiler_end` of `lock_profiler.h` records an end timestamp, adds
the elapsed duration to the running total and increments the acquisition counter;
without `LOCK_PROFILER` it does nothing. -/
def profiler_end (os : Env) (addr : Nat) (start : Int) (profile : lock_profile_t)
    (w : World) : lock_profile_t × World :=
  if os.LOCK_PROFILER then
    ({ waited := profile.waited + (os.time_monotonic w.ticks - start),
       locked := profile.locked + 1 },
     ({ w with ticks := w.ticks + 1 }).emit (.profiler_end addr (os.time_monotonic w.ticks)))
  else
    (profile, w)

/-- Modelled from the spec: `profiler_cleanup` of `lock_profiler.h` gives up the profile;
without `LOCK_PROFILER` it does nothing. -/
def profiler_cleanup (os : Env) (addr : Nat) (w : World) : World :=
  if os.LOCK_PROFILER then w.emit (.profiler_cleanup addr) else w

/-- Modelled from the spec: `DBG1` of `debug.h` emits one diagnostic entry at the severe
level, level 1 as its name says. -/
def DBG1 (group : debug_t) (fmt : String) (args : List String) (w : World) : World :=
  w.emit (.dbg group 1 fmt args)

/-- The method `lock` (lines 60-76). The result is `none` when the call never returns; the C
function returns `void`, so a returning call yields only the updated instance and world. -/
def lock (os : Env) (this : private_spinlock_t) (w : World) :
    Option (private_spinlock_t × World) :=
  match this with
  | .native addr spinlock profile =>
    let s := profiler_start os addr w
    match os.pthread_spin_lock s.2 spinlock with
    | none => none
    | some (err, spinlock') =>
      let w1 := s.2.emit (.pthread_spin_lock addr err)
      let w2 := if err ≠ 0 then
          DBG1 .DBG_LIB "!!! SPIN LOCK LOCK ERROR: %s !!!" [os.strerror err] w1
        else w1
      let e := profiler_end os addr s.1 profile w2
      some (.native addr spinlock' e.1, e.2)
  | .fallback addr mutex =>
    match os.mutex_lock w mutex.state with
    | none => none
    | some state' =>
      some (.fallback addr { mutex with state := state' }, w.emit (.mutex_lock mutex.addr))

/-- The method `unlock` (lines 78-92). -/
def unlock (os : Env) (this : private_spinlock_t) (w : World) : private_spinlock_t × World :=
  match this with
  | .native addr spinlock profile =>
    let r := os.pthread_spin_unlock w spinlock
    let w1 := w.emit (.pthread_spin_unlock addr r.1)
    let w2 := if r.1 ≠ 0 then
        DBG1 .DBG_LIB "!!! SPIN LOCK UNLOCK ERROR: %s !!!" [os.strerror r.1] w1
      else w1
    (.native addr r.2 profile, w2)
  | .fallback addr mutex =>
    (.fallback addr { mutex with state := os.mutex_unlock w mutex.state },
     w.emit (.mutex_unlock mutex.addr))

/-- The method `destroy` (lines 94-104). The instance is gone afterwards, so only the world
is returned. -/
def destroy (os : Env) (this : private_spinlock_t) (w : World) : World :=
  match this with
  | .native addr _ _ =>
    ((profiler_cleanup os addr w).emit (.pthread_spin_destroy addr)).emit (.free addr)
  | .fallback addr mutex =>
    (w.emit (.mutex_destroy mutex.addr)).emit (.free addr)

/-- The constructor `spinlock_create` (lines 109-130); `strategy` is the build's
`_POSIX_SPIN_LOCKS`. `INIT` allocates the instance. -/
def spinlock_create (os : Env) (strategy : Strategy) (w : World) :
    private_spinlock_t × World :=
  let w1 := ({ w with brk := w.brk + 1 }).emit (.malloc w.brk)
  match strategy with
  | .NativeSpin =>
    let p := profiler_init os w.brk (w1.emit (.pthread_spin_init w.brk))
    (.native w.brk pthread_spin_init p.1, p.2)
  | .MutexFallback =>
    let m := mutex_create w1
    (.fallback w.brk m.1, m.2)

/-! ## Observations and call sequences -/

/-- The actions performed between world `w` and a later world `w'`. -/
def emitted (w w' : World) : List Action :=
  w'.trace.drop w.trace.length

/-- Whether an action is a diagnostic entry. -/
def Action.isDiagnostic : Action → Bool
  | .dbg _ _ _ _ => true
  | _ => false

/-- Whether an action belongs to the profiler. -/
def Action.isProfiler : Action → Bool
  | .profiler_init _ => true
  | .profiler_start _ _ => true
  | .profiler_end _ _ => true
  | .profiler_cleanup _ => true
  | _ => false

/-- Whether an action is a call of the underlying acquire. -/
def Action.isAcquire : Action → Bool
  | .pthread_spin_lock _ _ => true
  | _ => false

/-- Whether an action is a call of the underlying release. -/
def Action.isRelease : Action → Bool
  | .pthread_spin_unlock _ _ => true
  | _ => false

/-- The level of a diagnostic entry. -/
def Action.level : Action → Option Nat
  | .dbg _ level _ _ => some level
  | _ => none

/-- The state of the primitive that backs the instance. -/
def private_spinlock_t.state : private_spinlock_t → LockState
  | .native _ spinlock _ => spinlock
  | .fallback _ mutex => mutex.state

/-- The profile of the instance; the fallback variant has none. -/
def private_spinlock_t.profile? : private_spinlock_t → Option lock_profile_t
  | .native _ _ profile => some profile
  | .fallback _ _ => none

/-- A call made by the owner of an instance. -/
inductive Call where
  | lock
  | unlock
  deriving DecidableEq, Repr

/-- Calls made one after the other on one instance; `none` when one of them never
returns. -/
def run (os : Env) : List Call → private_spinlock_t × World →
    Option (private_spinlock_t × World)
  | [], s => some s
  | .lock :: cs, s =>
    match lock os s.1 s.2 with
    | none => none
    | some s' => run os cs s'
  | .unlock :: cs, s => run os cs (unlock os s.1 s.2)

/-- The calls of `n` consecutive `lock(); unlock()` pairs. -/
def pairs : Nat → List Call
  | 0 => []
  | n + 1 => .lock :: .unlock :: pairs n

/-- One create, lock, unlock, destroy cycle. -/
def cycle (os : Env) (strategy : Strategy) (w : World) : Option World :=
  match lock os (spinlock_create os strategy w).1 (spinlock_create os strategy w).2 with
  | none => none
  | some l => some (destroy os (unlock os l.1 l.2).1 (unlock os l.1 l.2).2)

/-- The world after `n` cycles. -/
def cycles (os : Env) (strategy : Strategy) : Nat → World → Option World
  | 0, w => some w
  | n + 1, w =>
    match cycle os strategy w with
    | none => none
    | some w' => cycles os strategy n w'

/-! ## Environments -/

/-- Modelled from the spec: one atomic acquire attempt on the underlying primitive. It
takes `Unlocked` to `Locked` and fails while the primitive is `Locked` (section 4.1, state
machine). -/
def acquire_attempt : LockState → Option LockState
  | .Unlocked => some .Locked
  | .Locked => none

/-- Modelled from the spec: waiting for the primitive with nobody else releasing it. The
attempt is repeated, `attempts` bounds how often (polls of the busy-wait, wake-ups of the
blocked thread); `none` when no attempt succeeded. -/
def wait_acquire : Nat → LockState → Option LockState
  | 0, _ => none
  | n + 1, s =>
    match acquire_attempt s with
    | some s' => some s'
    | none => wait_acquire n s

/-- Modelled from the spec: the release of the underlying primitive, `Locked` to
`Unlocked`. The spec leaves a release of an unlocked primitive undefined; here it stays
`Unlocked`. -/
def release : LockState → LockState
  | _ => .Unlocked

/-- Modelled from the spec: the primitives of section 4.1 on top of the flag, clock and
`strerror` of `base`. They always report success; an acquire gives up waiting after
`attempts` attempts. -/
def posix (base : Env) (attempts : Nat) : Env :=
  { base with
    pthread_spin_lock := fun _ s => (wait_acquire attempts s).map (fun s' => (0, s'))
    pthread_spin_unlock := fun _ s => (0, release s)
    mutex_lock := fun _ s => wait_acquire attempts s
    mutex_unlock := fun _ s => release s }

/-- A successful underlying primitive: acquiring an unlocked primitive and releasing a
locked one report success and change the state accordingly. -/
def Env.Successful (os : Env) : Prop :=
  (∀ w, os.pthread_spin_lock w .Unlocked = some (0, .Locked)) ∧
  (∀ w, os.pthread_spin_unlock w .Locked = (0, .Unlocked)) ∧
  (∀ w, os.mutex_lock w .Unlocked = some .Locked) ∧
  (∀ w, os.mutex_unlock w .Locked = .Unlocked)

/-- Some error strings of `strerror`. -/
def strerror_table : Int → String
  | 22 => "Invalid argument"
  | 35 => "Resource deadlock avoided"
  | _ => "Unknown error"

/-- An environment whose pthread calls all report the status `err` and leave the
primitive as it is; profiling is enabled and the `k`-th clock reading is `k`. -/
def failing (err : Int) : Env :=
  { LOCK_PROFILER := true
    time_monotonic := fun k => k
    strerror := strerror_table
    pthread_spin_lock := fun _ s => some (err, s)
    pthread_spin_unlock := fun _ s => (err, s)
    mutex_lock := fun _ s => some s
    mutex_unlock := fun _ s => s }

/-- The successful primitives with profiling enabled, the `k`-th clock reading being `k`
and acquires that poll up to three times. -/
def linux : Env := posix (failing 0) 3

/-- The world before anything happened. -/
def World.boot : World :=
  { trace := [], live := [], brk := 0, ticks := 0 }

/-! ## Vocabulary of the traces -/

/-- The diagnostic entry of a failing `lock()` (line 70). -/
def lock_entry (os : Env) (err : Int) : Action :=
  .dbg .DBG_LIB 1 "!!! SPIN LOCK LOCK ERROR: %s !!!" [os.strerror err]

/-- The diagnostic entry of a failing `unlock()` (line 87). -/
def unlock_entry (os : Env) (err : Int) : Action :=
  .dbg .DBG_LIB 1 "!!! SPIN LOCK UNLOCK ERROR: %s !!!" [os.strerror err]

/-- The actions of a returning `lock()` on the native variant, in program order, when the
acquire reported `err` and the call started in world `w`. -/
def lock_actions (os : Env) (addr : Nat) (err : Int) (w : World) : List Action :=
  (if os.LOCK_PROFILER then [.profiler_start addr (os.time_monotonic w.ticks)] else []) ++
  [.pthread_spin_lock addr err] ++
  (if err ≠ 0 then [lock_entry os err] else []) ++
  (if os.LOCK_PROFILER then [.profiler_end addr (os.time_monotonic (w.ticks + 1))] else [])

/-- The resources acquired between world `w` and a later world `w'`, oldest first. -/
def acquired (w w' : World) : List Resource :=
  (emitted w w').filterMap Action.acquires

/-- The resources released between world `w` and a later world `w'`, oldest first. -/
def released (w w' : World) : List Resource :=
  (emitted w w').filterMap Action.releases

/-- The resources an instance holds, in the order in which `destroy` gives them up. -/
def private_spinlock_t.resources (os : Env) : private_spinlock_t → List Resource
  | .native addr _ _ =>
    (if os.LOCK_PROFILER then [.profile addr] else []) ++ [.spinlock addr, .instance_ addr]
  | .fallback addr mutex => [.mutex mutex.addr, .instance_ addr]

/-- Whether the underlying acquire that `lock()` issues in world `w` returns. -/
def underlying_acquire_returns (os : Env) (this : private_spinlock_t) (w : World) : Bool :=
  match this with
  | .native addr spinlock _ =>
    (os.pthread_spin_lock (profiler_start os addr w).2 spinlock).isSome
  | .fallback _ mutex => (os.mutex_lock w mutex.state).isSome

/-! ## Debug levels -/

/-- Where a thread stands in its loop `lock(); counter++; unlock()`. The increment is a read
of the shared counter followed by a write of the value read plus one. -/
inductive Pc where
  | idle
  | read
  | write (tmp : Nat)
  | release
  deriving DecidableEq, Repr

/-- A thread: its position and the number of loop iterations it still has to complete. -/
structure Thread where
  pc : Pc
  todo : Nat
  deriving DecidableEq, Repr

/-- The shared instance, the rest of the process, the shared counter and the threads. -/
structure Config where
  this : private_spinlock_t
  world : World
  counter : Nat
  threads : List Thread
  deriving DecidableEq, Repr

/-- Whether a thread is between its `lock()` and the end of its `unlock()`. -/
def Thread.in_critical_section (t : Thread) : Bool :=
  match t.pc with
  | .idle => false
  | _ => true

/-- The increments a thread has still to perform. -/
def Thread.pending (t : Thread) : Nat :=
  match t.pc with
  | .release => t.todo - 1
  | _ => t.todo

/-- One step of thread `i`. A thread that is done, or whose `lock()` has not returned,
leaves the configuration as it is; a `lock()` that has not returned is tried again the
next time the thread is scheduled. -/
def step (os : Env) (i : Nat) (c : Config) : Config :=
  match c.threads[i]? with
  | none => c
  | some t =>
    if t.todo = 0 then c
    else
      match t.pc with
      | .idle =>
        match lock os c.this c.world with
        | none => c
        | some r =>
          { c with this := r.1, world := r.2,
                   threads := c.threads.set i { t with pc := .read } }
      | .read => { c with threads := c.threads.set i { t with pc := .write c.counter } }
      | .write tmp =>
        { c with counter := tmp + 1, threads := c.threads.set i { t with pc := .release } }
      | .release =>
        { c with this := (unlock os c.this c.world).1, world := (unlock os c.this c.world).2,
                 threads := c.threads.set i { pc := .idle, todo := t.todo - 1 } }

/-- The configuration after the threads took steps in the order of `schedule`. -/
def exec (os : Env) : List Nat → Config → Config
  | [], c => c
  | i :: rest, c => exec os rest (step os i c)

/-- A freshly created lock, the counter at zero, and one thread per entry of `loops`, the
entry being the number of iterations of that thread. -/
def start (os : Env) (strategy : Strategy) (w : World) (loops : List Nat) : Config :=
  { this := (spinlock_create os strategy w).1
    world := (spinlock_create os strategy w).2
    counter := 0
    threads := loops.map (fun m => { pc := .idle, todo := m }) }

/-- Whether every thread has completed its iterations. -/
def Config.finished (c : Config) : Bool :=
  c.threads.all (fun t => t.todo == 0)

/-- The schedule in which the threads run one after the other, thread `i` first, each for
the four steps (lock, read, write, unlock) of every iteration it has to complete. -/
def sequential : Nat → List Nat → List Nat
  | _, [] => []
  | i, m :: rest => List.replicate (4 * m) i ++ sequential (i + 1) rest

/-- What holds of every configuration the threads can reach, `total` being the number of
increments asked for: the threads in the critical section are one if the primitive is
`Locked` and none otherwise, the counter and the increments still to do add up to
`total`, a thread in the critical section has an iteration to complete, and a value read
is the current counter. -/
def Inv (total : Nat) (c : Config) : Prop :=
  c.threads.countP Thread.in_critical_section =
    (if c.this.state = .Locked then 1 else 0) ∧
  c.counter + (c.threads.map Thread.pending).sum = total ∧
  ∀ t ∈ c.threads, (t.pc = .idle ∨ 1 ≤ t.todo) ∧ ∀ tmp, t.pc = .write tmp → tmp = c.counter
/-! ## Traces of single calls -/

theorem emitted_of_trace (w w' : World) (l : List Action) (h : w'.trace = w.trace ++ l) :
    emitted w w' = l := by
  simp [emitted, h]

theorem lock_native_returns (os : Env) (addr : Nat) (s s' : pthread_spinlock_t)
    (p : lock_profile_t) (w : World) (err : Int)
    (h : os.pthread_spin_lock (profiler_start os addr w).2 s = some (err, s')) :
    ∃ r, lock os (.native addr s p) w = some r ∧
      emitted w r.2 = lock_actions os addr err w ∧
      r.1 = .native addr s'
        (if os.LOCK_PROFILER then
          { waited := p.waited + (os.time_monotonic (w.ticks + 1) - os.time_monotonic w.ticks),
            locked := p.locked + 1 }
         else p) := by
  simp only [lock, h]
  refine ⟨_, rfl, ?_, ?_⟩
  · apply emitted_of_trace
    cases hp : os.LOCK_PROFILER <;> by_cases he : err = 0 <;>
      simp [lock_actions, lock_entry, profiler_start, profiler_end, DBG1, World.emit, hp, he]
  · cases hp : os.LOCK_PROFILER <;> by_cases he : err = 0 <;>
      simp [profiler_start, profiler_end, DBG1, World.emit, hp, he]

theorem unlock_native_emitted (os : Env) (addr : Nat) (s : pthread_spinlock_t)
    (p : lock_profile_t) (w : World) :
    emitted w (unlock os (.native addr s p) w).2 =
      [.pthread_spin_unlock addr (os.pthread_spin_unlock w s).1] ++
      (if (os.pthread_spin_unlock w s).1 ≠ 0 then
        [unlock_entry os (os.pthread_spin_unlock w s).1] else []) := by
  apply emitted_of_trace
  by_cases he : (os.pthread_spin_unlock w s).1 = 0 <;>
    simp [unlock, unlock_entry, DBG1, World.emit, he]

/-- C1: on the native variant, whatever status the underlying pthread call returns, `lock()`
returns normally (`unlock()` always does), and the number of diagnostic entries the call
emits is 1 when the status is non-zero and 0 when it is zero. The two operations are
independent: what is said of `unlock()` does not depend on the acquire. -/
theorem diagnostics_one_per_failed_call (os : Env) (addr : Nat) (s : pthread_spinlock_t)
    (p : lock_profile_t) (w : World) :
    (∀ err s', os.pthread_spin_lock (profiler_start os addr w).2 s = some (err, s') →
      ∃ r, lock os (.native addr s p) w = some r ∧
        (emitted w r.2).countP Action.isDiagnostic = if err = 0 then 0 else 1) ∧
    (∀ err s', os.pthread_spin_unlock w s = (err, s') →
      (emitted w (unlock os (.native addr s p) w).2).countP Action.isDiagnostic =
        if err = 0 then 0 else 1) := by
  constructor
  · intro err s' hl
    obtain ⟨r, hr, he, -⟩ := lock_native_returns os addr s s' p w err hl
    refine ⟨r, hr, ?_⟩
    rw [he]
    cases hp : os.LOCK_PROFILER <;> by_cases h0 : err = 0 <;>
      simp [lock_actions, lock_entry, Action.isDiagnostic, hp, h0, List.countP_cons]
  · intro err s' hu
    rw [unlock_native_emitted, hu]
    by_cases h0 : err = 0 <;>
      simp [unlock_entry, Action.isDiagnostic, h0, List.countP_cons]

/-- Witness of C1: a `lock()` whose acquire reports `EINVAL` (22), an `unlock()` of a held
lock whose release reports `EINVAL`, and an `unlock()` of a held lock on the successful
primitives. -/
theorem diagnostics_one_per_failed_call_witness :
    ((failing 22).pthread_spin_lock (profiler_start (failing 22) 0 World.boot).2 .Unlocked
        = some (22, .Unlocked) ∧
      (failing 22).pthread_spin_unlock World.boot .Locked = (22, .Locked) ∧
      linux.pthread_spin_unlock World.boot .Locked = (0, .Unlocked)) ∧
    (∃ r, lock (failing 22) (.native 0 .Unlocked ⟨0, 0⟩) World.boot = some r ∧
      (emitted World.boot r.2).countP Action.isDiagnostic = if (22 : Int) = 0 then 0 else 1) ∧
    (emitted World.boot
        (unlock (failing 22) (.native 0 .Locked ⟨0, 0⟩) World.boot).2).countP
      Action.isDiagnostic = (if (22 : Int) = 0 then 0 else 1) ∧
    (emitted World.boot
        (unlock linux (.native 0 .Locked ⟨0, 0⟩) World.boot).2).countP
      Action.isDiagnostic = (if (0 : Int) = 0 then 0 else 1) :=
  ⟨⟨rfl, rfl, rfl⟩,
   (diagnostics_one_per_failed_call (failing 22) 0 .Unlocked ⟨0, 0⟩ World.boot).1
     22 .Unlocked rfl,
   (diagnostics_one_per_failed_call (failing 22) 0 .Locked ⟨0, 0⟩ World.boot).2
     22 .Locked rfl,
   (diagnostics_one_per_failed_call linux 0 .Locked ⟨0, 0⟩ World.boot).2 0 .Unlocked rfl⟩

/-- C2: on the native variant every returning `lock()` invokes the underlying acquire exactly
once and every `unlock()` invokes the underlying release exactly once, whatever status is
returned; the status appears only in the recorded call, the call itself returns normally,
and neither operation invokes the other primitive. What is said of `unlock()` does not
depend on the acquire. -/
theorem primitive_invoked_exactly_once (os : Env) (addr : Nat) (s : pthread_spinlock_t)
    (p : lock_profile_t) (w : World) :
    (∀ err s', os.pthread_spin_lock (profiler_start os addr w).2 s = some (err, s') →
      ∃ r, lock os (.native addr s p) w = some r ∧
        (emitted w r.2).filter Action.isAcquire = [.pthread_spin_lock addr err] ∧
        (emitted w r.2).countP Action.isAcquire = 1 ∧
        (emitted w r.2).countP Action.isRelease = 0) ∧
    (∀ err s', os.pthread_spin_unlock w s = (err, s') →
      (emitted w (unlock os (.native addr s p) w).2).filter Action.isRelease =
        [.pthread_spin_unlock addr err] ∧
      (emitted w (unlock os (.native addr s p) w).2).countP Action.isRelease = 1 ∧
      (emitted w (unlock os (.native addr s p) w).2).countP Action.isAcquire = 0) := by
  constructor
  · intro err s' hl
    obtain ⟨r, hr, he, -⟩ := lock_native_returns os addr s s' p w err hl
    refine ⟨r, hr, ?_⟩
    rw [he]
    cases hp : os.LOCK_PROFILER <;> by_cases h0 : err = 0 <;>
      simp [lock_actions, lock_entry, Action.isAcquire, Action.isRelease, hp, h0,
        List.countP_cons, List.filter_cons]
  · intro err s' hu
    rw [unlock_native_emitted, hu]
    by_cases h0 : err = 0 <;>
      simp [unlock_entry, Action.isAcquire, Action.isRelease, h0, List.countP_cons,
        List.filter_cons]

/-- Witness of C2: a `lock()` whose acquire reports `EINVAL` (22), an `unlock()` of a held
lock whose release reports `EINVAL`, and an `unlock()` of a held lock on the successful
primitives. -/
theorem primitive_invoked_exactly_once_witness :
    ((failing 22).pthread_spin_lock (profiler_start (failing 22) 0 World.boot).2 .Unlocked
        = some (22, .Unlocked) ∧
      (failing 22).pthread_spin_unlock World.boot .Locked = (22, .Locked) ∧
      linux.pthread_spin_unlock World.boot .Locked = (0, .Unlocked)) ∧
    (∃ r, lock (failing 22) (.native 0 .Unlocked ⟨0, 0⟩) World.boot = some r ∧
      (emitted World.boot r.2).filter Action.isAcquire = [.pthread_spin_lock 0 22] ∧
      (emitted World.boot r.2).countP Action.isAcquire = 1 ∧
      (emitted World.boot r.2).countP Action.isRelease = 0) ∧
    ((emitted World.boot (unlock (failing 22) (.native 0 .Locked ⟨0, 0⟩) World.boot).2).filter
        Action.isRelease = [.pthread_spin_unlock 0 22] ∧
      (emitted World.boot (unlock (failing 22) (.native 0 .Locked ⟨0, 0⟩) World.boot).2).countP
        Action.isRelease = 1 ∧
      (emitted World.boot (unlock (failing 22) (.native 0 .Locked ⟨0, 0⟩) World.boot).2).countP
        Action.isAcquire = 0) ∧
    ((emitted World.boot (unlock linux (.native 0 .Locked ⟨0, 0⟩) World.boot).2).filter
        Action.isRelease = [.pthread_spin_unlock 0 0] ∧
      (emitted World.boot (unlock linux (.native 0 .Locked ⟨0, 0⟩) World.boot).2).countP
        Action.isRelease = 1 ∧
      (emitted World.boot (unlock linux (.native 0 .Locked ⟨0, 0⟩) World.boot).2).countP
        Action.isAcquire = 0) :=
  ⟨⟨rfl, rfl, rfl⟩,
   (primitive_invoked_exactly_once (failing 22) 0 .Unlocked ⟨0, 0⟩ World.boot).1
     22 .Unlocked rfl,
   (primitive_invoked_exactly_once (failing 22) 0 .Locked ⟨0, 0⟩ World.boot).2
     22 .Locked rfl,
   (primitive_invoked_exactly_once linux 0 .Locked ⟨0, 0⟩ World.boot).2 0 .Unlocked rfl⟩

/-- C4, as stated, fails: with the acquire reporting `EINVAL` (22) the profiled `lock()`
still takes the end timestamp and adds the elapsed time, and the diagnostic entry stands
between the acquire and the end timestamp; so it is not true that every end timestamp comes
right after an acquire that returned success. -/
theorem lock_end_stamp_after_failed_acquire :
    (failing 22).LOCK_PROFILER = true ∧
    lock (failing 22) (.native 0 .Unlocked ⟨0, 0⟩) World.boot =
      some (.native 0 .Unlocked ⟨1, 1⟩,
        { trace := [.profiler_start 0 0, .pthread_spin_lock 0 22,
            .dbg .DBG_LIB 1 "!!! SPIN LOCK LOCK ERROR: %s !!!" ["Invalid argument"],
            .profiler_end 0 1],
          live := [], brk := 0, ticks := 2 }) ∧
    ¬ (∀ r, lock (failing 22) (.native 0 .Unlocked ⟨0, 0⟩) World.boot = some r →
        ∀ before stamp after, emitted World.boot r.2 = before ++ .profiler_end 0 stamp :: after →
          ∃ earlier, before = earlier ++ [.pthread_spin_lock 0 0]) := by
  refine ⟨rfl, rfl, ?_⟩
  intro h
  obtain ⟨earlier, he⟩ := h _ rfl
    [.profiler_start 0 0, .pthread_spin_lock 0 22,
      .dbg .DBG_LIB 1 "!!! SPIN LOCK LOCK ERROR: %s !!!" ["Invalid argument"]] 1 [] rfl
  have hlast := congrArg List.getLast? he
  simp at hlast

/-- C4, amended: on the profiled native variant, a `lock()` whose acquire returns does, in
this order and nothing else: take the start timestamp, call the acquire, emit the one
diagnostic entry if the status is non-zero, take the end timestamp; the running total grows
by the difference of the two timestamps, whatever the status. -/
theorem lock_profiling_window (os : Env) (addr : Nat) (s s' : pthread_spinlock_t)
    (p : lock_profile_t) (w : World) (err : Int)
    (hprof : os.LOCK_PROFILER = true)
    (h : os.pthread_spin_lock (profiler_start os addr w).2 s = some (err, s')) :
    ∃ r p', lock os (.native addr s p) w = some r ∧
      emitted w r.2 =
        [.profiler_start addr (os.time_monotonic w.ticks), .pthread_spin_lock addr err] ++
        (if err = 0 then []
         else [.dbg .DBG_LIB 1 "!!! SPIN LOCK LOCK ERROR: %s !!!" [os.strerror err]]) ++
        [.profiler_end addr (os.time_monotonic (w.ticks + 1))] ∧
      r.1.profile? = some p' ∧
      p'.waited =
        p.waited + (os.time_monotonic (w.ticks + 1) - os.time_monotonic w.ticks) := by
  obtain ⟨r, hr, he, hi⟩ := lock_native_returns os addr s s' p w err h
  refine ⟨r, ⟨p.waited + (os.time_monotonic (w.ticks + 1) - os.time_monotonic w.ticks),
    p.locked + 1⟩, hr, ?_, ?_, rfl⟩
  · rw [he]
    by_cases h0 : err = 0 <;> simp [lock_actions, lock_entry, hprof, h0]
  · rw [hi]
    simp [private_spinlock_t.profile?, hprof]

/-- Witness of the amended C4: the acquire reports `EDEADLK` (35). -/
theorem lock_profiling_window_witness :
    ((failing 35).LOCK_PROFILER = true ∧
      (failing 35).pthread_spin_lock (profiler_start (failing 35) 0 World.boot).2 .Locked
        = some (35, .Locked)) ∧
    ∃ r p', lock (failing 35) (.native 0 .Locked ⟨0, 0⟩) World.boot = some r ∧
      emitted World.boot r.2 =
        [.profiler_start 0 ((failing 35).time_monotonic World.boot.ticks),
          .pthread_spin_lock 0 35] ++
        (if (35 : Int) = 0 then []
         else [.dbg .DBG_LIB 1 "!!! SPIN LOCK LOCK ERROR: %s !!!"
            [(failing 35).strerror 35]]) ++
        [.profiler_end 0 ((failing 35).time_monotonic (World.boot.ticks + 1))] ∧
      r.1.profile? = some p' ∧
      p'.waited = (⟨0, 0⟩ : lock_profile_t).waited +
        ((failing 35).time_monotonic (World.boot.ticks + 1) -
          (failing 35).time_monotonic World.boot.ticks) :=
  ⟨⟨rfl, rfl⟩,
   lock_profiling_window (failing 35) 0 .Locked .Locked ⟨0, 0⟩ World.boot 35 rfl rfl⟩

/-! ## Profile totals over sequences of calls -/

theorem lock_native_profile (os : Env) (hprof : os.LOCK_PROFILER = true)
    (hmono : Monotone os.time_monotonic) (addr : Nat) (s : pthread_spinlock_t)
    (p : lock_profile_t) (w : World) (r : private_spinlock_t × World)
    (h : lock os (.native addr s p) w = some r) :
    ∃ s' p', r.1 = .native addr s' p' ∧ p.waited ≤ p'.waited ∧ p'.locked = p.locked + 1 := by
  cases hc : os.pthread_spin_lock (profiler_start os addr w).2 s with
  | none => simp [lock, hc] at h
  | some v =>
    obtain ⟨err, s'⟩ := v
    obtain ⟨r', hr', -, hi⟩ := lock_native_returns os addr s s' p w err hc
    rw [hr'] at h
    cases h
    rw [hi]
    refine ⟨s', _, rfl, ?_, ?_⟩
    · have := hmono (Nat.le_succ w.ticks)
      simp only [hprof, if_true]
      have h2 : os.time_monotonic w.ticks ≤ os.time_monotonic (w.ticks + 1) := this
      linarith
    · simp [hprof]

theorem unlock_native_profile (os : Env) (addr : Nat) (s : pthread_spinlock_t)
    (p : lock_profile_t) (w : World) :
    ∃ s', (unlock os (.native addr s p) w).1 = .native addr s' p :=
  ⟨_, rfl⟩

theorem run_append (os : Env) (xs ys : List Call) (st : private_spinlock_t × World) :
    run os (xs ++ ys) st = (run os xs st).bind (run os ys) := by
  induction xs generalizing st with
  | nil => simp [run]
  | cons c cs ih =>
    cases c with
    | lock =>
      simp only [List.cons_append, run]
      cases lock os st.1 st.2 with
      | none => simp
      | some s' => simpa using ih s'
    | unlock =>
      simpa only [List.cons_append, run] using ih _

theorem run_native_profile (os : Env) (hprof : os.LOCK_PROFILER = true)
    (hmono : Monotone os.time_monotonic) (calls : List Call) (addr : Nat)
    (s : pthread_spinlock_t) (p : lock_profile_t) (w : World)
    (r : private_spinlock_t × World)
    (h : run os calls (.native addr s p, w) = some r) :
    ∃ s' p', r.1 = .native addr s' p' ∧ p.waited ≤ p'.waited ∧
      p'.locked = p.locked + calls.count .lock ∧
      (calls.count .lock = 0 → p' = p) := by
  induction calls generalizing s p w with
  | nil =>
    simp only [run, Option.some.injEq] at h
    subst h
    exact ⟨s, p, rfl, le_refl _, by simp, fun _ => rfl⟩
  | cons c cs ih =>
    cases c with
    | lock =>
      simp only [run] at h
      cases hl : lock os (.native addr s p) w with
      | none => simp [hl] at h
      | some m =>
        obtain ⟨s1, p1, hm, hw, hc⟩ := lock_native_profile os hprof hmono addr s p w m hl
        obtain ⟨m1, m2⟩ := m
        simp only at hm
        subst hm
        rw [hl] at h
        obtain ⟨s2, p2, hr, hw2, hc2, -⟩ := ih s1 p1 m2 h
        refine ⟨s2, p2, hr, le_trans hw hw2, ?_, ?_⟩
        · rw [hc2, hc]
          simp [List.count_cons]
          omega
        · intro h0
          simp [List.count_cons] at h0
    | unlock =>
      simp only [run] at h
      obtain ⟨s1, hu⟩ := unlock_native_profile os addr s p w
      have hst : unlock os (.native addr s p) w =
          (.native addr s1 p, (unlock os (.native addr s p) w).2) := by
        rw [← hu]
      rw [hst] at h
      obtain ⟨s2, p2, hr, hw2, hc2, h0⟩ := ih s1 p _ h
      refine ⟨s2, p2, hr, hw2, ?_, ?_⟩
      · rw [hc2]
        simp [List.count_cons]
      · intro hz
        apply h0
        simpa [List.count_cons] using hz

theorem create_native (os : Env) (w : World) :
    ∃ w', spinlock_create os .NativeSpin w = (.native w.brk .Unlocked ⟨0, 0⟩, w') := by
  cases hp : os.LOCK_PROFILER <;>
    simp [spinlock_create, profiler_init, pthread_spin_init, hp]

/-- C5: with profiling enabled and a monotonic clock, take any sequence `calls` of
`lock()`/`unlock()` calls completed one after the other on a freshly created native lock,
and one further completed call `c`. After `calls` the accumulated wait time is
non-negative and the counter equals the number of `lock()` calls in `calls`; after `c`
the wait time has not decreased and the counter equals the number of `lock()` calls
including `c`; an `unlock()` leaves both unchanged. -/
theorem profile_totals_over_calls (os : Env) (hprof : os.LOCK_PROFILER = true)
    (hmono : Monotone os.time_monotonic) (w : World) (calls : List Call) (c : Call)
    (r1 r2 : private_spinlock_t × World)
    (h1 : run os calls (spinlock_create os .NativeSpin w) = some r1)
    (h2 : run os (calls ++ [c]) (spinlock_create os .NativeSpin w) = some r2) :
    ∃ p1 p2, r1.1.profile? = some p1 ∧ r2.1.profile? = some p2 ∧
      0 ≤ p1.waited ∧ p1.waited ≤ p2.waited ∧
      p1.locked = calls.count .lock ∧
      p2.locked = (calls ++ [c]).count .lock ∧
      (c = .unlock → p2 = p1) := by
  obtain ⟨w0, hc⟩ := create_native os w
  rw [hc] at h1 h2
  obtain ⟨s1, p1, hr1, hw1, hl1, -⟩ :=
    run_native_profile os hprof hmono calls w.brk .Unlocked ⟨0, 0⟩ w0 r1 h1
  rw [run_append, h1] at h2
  change run os [c] r1 = some r2 at h2
  obtain ⟨r1a, r1b⟩ := r1
  change r1a = _ at hr1
  subst hr1
  obtain ⟨s2, p2, hr2, hw2, hl2, hz2⟩ :=
    run_native_profile os hprof hmono [c] w.brk s1 p1 r1b r2 h2
  refine ⟨p1, p2, rfl, ?_, ?_, hw2, ?_, ?_, ?_⟩
  · rw [hr2]; rfl
  · simpa using hw1
  · simpa using hl1
  · rw [hl2, hl1]
    simp [List.count_append]
  · intro hu
    subst hu
    exact hz2 (by decide)

/-- Witness of C5: `lock(); unlock()` and then `lock()` on a fresh lock, the `k`-th clock
reading being `k`. -/
theorem profile_totals_over_calls_witness :
    (linux.LOCK_PROFILER = true ∧ Monotone linux.time_monotonic ∧
      run linux [.lock, .unlock] (spinlock_create linux .NativeSpin World.boot) =
        some (.native 0 .Unlocked ⟨1, 1⟩,
          { trace := [.malloc 0, .pthread_spin_init 0, .profiler_init 0,
              .profiler_start 0 0, .pthread_spin_lock 0 0, .profiler_end 0 1,
              .pthread_spin_unlock 0 0],
            live := [.profile 0, .spinlock 0, .instance_ 0], brk := 1, ticks := 2 }) ∧
      run linux ([.lock, .unlock] ++ [.lock]) (spinlock_create linux .NativeSpin World.boot) =
        some (.native 0 .Locked ⟨2, 2⟩,
          { trace := [.malloc 0, .pthread_spin_init 0, .profiler_init 0,
              .profiler_start 0 0, .pthread_spin_lock 0 0, .profiler_end 0 1,
              .pthread_spin_unlock 0 0,
              .profiler_start 0 2, .pthread_spin_lock 0 0, .profiler_end 0 3],
            live := [.profile 0, .spinlock 0, .instance_ 0], brk := 1, ticks := 4 })) ∧
    ∃ p1 p2,
      (private_spinlock_t.native 0 .Unlocked ⟨1, 1⟩).profile? = some p1 ∧
      (private_spinlock_t.native 0 .Locked ⟨2, 2⟩).profile? = some p2 ∧
      0 ≤ p1.waited ∧ p1.waited ≤ p2.waited ∧
      p1.locked = [Call.lock, Call.unlock].count .lock ∧
      p2.locked = ([Call.lock, Call.unlock] ++ [Call.lock]).count .lock ∧
      (Call.lock = .unlock → p2 = p1) :=
  ⟨⟨rfl, fun _ _ h => Int.ofNat_le.mpr h, rfl, rfl⟩,
   profile_totals_over_calls linux rfl (fun _ _ h => Int.ofNat_le.mpr h) World.boot
     [.lock, .unlock] .lock _ _ rfl rfl⟩

/-! ## The two-state machine -/

theorem posix_successful (base : Env) (n : Nat) : (posix base (n + 1)).Successful :=
  ⟨fun _ => rfl, fun _ => rfl, fun _ => rfl, fun _ => rfl⟩

theorem create_state (os : Env) (strategy : Strategy) (w : World) :
    (spinlock_create os strategy w).1.state = .Unlocked := by
  cases strategy <;> rfl

theorem lock_successful (os : Env) (h : os.Successful) (this : private_spinlock_t)
    (w : World) (hs : this.state = .Unlocked) :
    ∃ r, lock os this w = some r ∧ r.1.state = .Locked := by
  cases this with
  | native addr s p =>
    change s = .Unlocked at hs
    subst hs
    obtain ⟨r, hr, -, hi⟩ := lock_native_returns os addr .Unlocked .Locked p w 0 (h.1 _)
    exact ⟨r, hr, by rw [hi]; rfl⟩
  | fallback addr m =>
    change m.state = .Unlocked at hs
    refine ⟨(.fallback addr { m with state := .Locked }, w.emit (.mutex_lock m.addr)), ?_, rfl⟩
    simp only [lock, hs, h.2.2.1]

theorem unlock_successful (os : Env) (h : os.Successful) (this : private_spinlock_t)
    (w : World) (hs : this.state = .Locked) :
    (unlock os this w).1.state = .Unlocked := by
  cases this with
  | native addr s p =>
    change s = .Locked at hs
    subst hs
    simp [unlock, private_spinlock_t.state, h.2.1]
  | fallback addr m =>
    change m.state = .Locked at hs
    simp [unlock, private_spinlock_t.state, hs, h.2.2.2]

theorem pairs_successful (os : Env) (h : os.Successful) (n : Nat)
    (st : private_spinlock_t × World) (hs : st.1.state = .Unlocked) :
    ∃ r, run os (pairs n) st = some r ∧ r.1.state = .Unlocked := by
  induction n generalizing st with
  | zero => exact ⟨st, rfl, hs⟩
  | succ n ih =>
    obtain ⟨l, hl, hls⟩ := lock_successful os h st.1 st.2 hs
    simp only [pairs, run, hl]
    exact ih _ (unlock_successful os h l.1 l.2 hls)

/-- C6: with a successful underlying primitive, `spinlock_create()` returns a lock in state
`Unlocked`, `lock()` returns and takes `Unlocked` to `Locked`, `unlock()` takes `Locked` to
`Unlocked`, and for every `n` the `n` consecutive `lock(); unlock()` pairs on a fresh lock
all return and leave it `Unlocked`; under both variants. -/
theorem two_state_machine (os : Env) (h : os.Successful) (strategy : Strategy) (w : World) :
    (spinlock_create os strategy w).1.state = .Unlocked ∧
    (∀ this w', this.state = .Unlocked →
      ∃ r, lock os this w' = some r ∧ r.1.state = .Locked) ∧
    (∀ this w', this.state = .Locked → (unlock os this w').1.state = .Unlocked) ∧
    (∀ n, ∃ r, run os (pairs n) (spinlock_create os strategy w) = some r ∧
      r.1.state = .Unlocked) :=
  ⟨create_state os strategy w,
   fun this w' hs => lock_successful os h this w' hs,
   fun this w' hs => unlock_successful os h this w' hs,
   fun n => pairs_successful os h n _ (create_state os strategy w)⟩

/-- Witness of C6: the 2000 pairs of the example scenario on the successful primitives. -/
theorem two_state_machine_witness :
    linux.Successful ∧
    ∃ r, run linux (pairs 2000) (spinlock_create linux .NativeSpin World.boot) = some r ∧
      r.1.state = .Unlocked :=
  ⟨posix_successful (failing 0) 2,
   (two_state_machine linux (posix_successful (failing 0) 2) .NativeSpin World.boot).2.2.2
     2000⟩

/-! ## Resources over create, lock, unlock, destroy cycles -/

theorem create_resources (os : Env) (strategy : Strategy) (w : World) :
    (spinlock_create os strategy w).2.live =
      (spinlock_create os strategy w).1.resources os ++ w.live ∧
    acquired w (spinlock_create os strategy w).2 =
      ((spinlock_create os strategy w).1.resources os).reverse := by
  cases strategy <;> cases hp : os.LOCK_PROFILER <;>
    simp [spinlock_create, profiler_init, mutex_create, private_spinlock_t.resources,
      acquired, emitted, World.emit, Action.apply, Action.acquires, Action.releases, hp]

theorem lock_resources (os : Env) (this : private_spinlock_t) (w : World)
    (r : private_spinlock_t × World) (h : lock os this w = some r) :
    r.2.live = w.live ∧ r.1.resources os = this.resources os := by
  cases this with
  | native addr s p =>
    cases hc : os.pthread_spin_lock (profiler_start os addr w).2 s with
    | none => simp [lock, hc] at h
    | some v =>
      obtain ⟨err, s'⟩ := v
      simp only [lock, hc, Option.some.injEq] at h
      subst h
      cases hp : os.LOCK_PROFILER <;> by_cases he : err = 0 <;>
        simp [profiler_start, profiler_end, DBG1, private_spinlock_t.resources,
          World.emit, Action.apply, Action.acquires, Action.releases, hp, he]
  | fallback addr m =>
    cases hc : os.mutex_lock w m.state with
    | none => simp [lock, hc] at h
    | some st =>
      simp only [lock, hc, Option.some.injEq] at h
      subst h
      simp [private_spinlock_t.resources, World.emit, Action.apply, Action.acquires,
        Action.releases]

theorem unlock_resources (os : Env) (this : private_spinlock_t) (w : World) :
    (unlock os this w).2.live = w.live ∧
    (unlock os this w).1.resources os = this.resources os := by
  cases this with
  | native addr s p =>
    by_cases he : (os.pthread_spin_unlock w s).1 = 0 <;>
      simp [unlock, DBG1, private_spinlock_t.resources, World.emit, Action.apply,
        Action.acquires, Action.releases, he]
  | fallback addr m =>
    simp [unlock, private_spinlock_t.resources, World.emit, Action.apply, Action.acquires,
      Action.releases]

theorem destroy_resources (os : Env) (this : private_spinlock_t) (w : World)
    (rest : List Resource) (h : w.live = this.resources os ++ rest) :
    (destroy os this w).live = rest ∧ released w (destroy os this w) = this.resources os := by
  cases this with
  | native addr s p =>
    cases hp : os.LOCK_PROFILER <;>
      simp [private_spinlock_t.resources, hp] at h <;>
      simp [destroy, profiler_cleanup, private_spinlock_t.resources, released, emitted,
        World.emit, Action.apply, Action.acquires, Action.releases, hp, h]
  | fallback addr m =>
    simp [private_spinlock_t.resources] at h
    simp [destroy, private_spinlock_t.resources, released, emitted,
      World.emit, Action.apply, Action.acquires, Action.releases, h]

theorem resources_nodup (os : Env) (this : private_spinlock_t) :
    (this.resources os).Nodup ∧ this.resources os ≠ [] := by
  cases this with
  | native addr s p =>
    cases hp : os.LOCK_PROFILER <;> simp [private_spinlock_t.resources, hp]
  | fallback addr m => simp [private_spinlock_t.resources]

theorem cycle_balanced (os : Env) (h : os.Successful) (strategy : Strategy) (w : World) :
    ∃ l, lock os (spinlock_create os strategy w).1 (spinlock_create os strategy w).2
        = some l ∧
      released (unlock os l.1 l.2).2 (destroy os (unlock os l.1 l.2).1 (unlock os l.1 l.2).2)
        = (acquired w (spinlock_create os strategy w).2).reverse ∧
      (acquired w (spinlock_create os strategy w).2).Nodup ∧
      acquired w (spinlock_create os strategy w).2 ≠ [] ∧
      (destroy os (unlock os l.1 l.2).1 (unlock os l.1 l.2).2).live = w.live := by
  obtain ⟨l, hl, -⟩ := lock_successful os h _ (spinlock_create os strategy w).2
    (create_state os strategy w)
  obtain ⟨hc1, hc2⟩ := create_resources os strategy w
  obtain ⟨hl1, hl2⟩ := lock_resources os _ _ l hl
  obtain ⟨hu1, hu2⟩ := unlock_resources os l.1 l.2
  obtain ⟨hn1, hn2⟩ := resources_nodup os (spinlock_create os strategy w).1
  have hlive : (unlock os l.1 l.2).2.live =
      (unlock os l.1 l.2).1.resources os ++ w.live := by
    rw [hu1, hu2, hl1, hl2, hc1]
  obtain ⟨hd1, hd2⟩ := destroy_resources os _ _ w.live hlive
  refine ⟨l, hl, ?_, ?_, ?_, hd1⟩
  · rw [hd2, hc2, hu2, hl2, List.reverse_reverse]
  · rw [hc2]
    exact List.nodup_reverse.mpr hn1
  · rw [hc2]
    simpa using hn2

/-- C7: with a successful underlying primitive, under both variants, in a create, lock,
unlock, destroy cycle the resources `destroy()` releases are exactly the resources
`spinlock_create()` acquired (in reverse order, none twice, at least the instance), the
live resources after the cycle are those before it, and for every `n` the `n` cycles all
complete and leave the live resources as they were before the first. -/
theorem cycles_leave_live_resources (os : Env) (h : os.Successful) (strategy : Strategy)
    (w : World) :
    (∃ l, lock os (spinlock_create os strategy w).1 (spinlock_create os strategy w).2
        = some l ∧
      released (unlock os l.1 l.2).2 (destroy os (unlock os l.1 l.2).1 (unlock os l.1 l.2).2)
        = (acquired w (spinlock_create os strategy w).2).reverse ∧
      (acquired w (spinlock_create os strategy w).2).Nodup ∧
      acquired w (spinlock_create os strategy w).2 ≠ [] ∧
      (destroy os (unlock os l.1 l.2).1 (unlock os l.1 l.2).2).live = w.live) ∧
    ∀ n, ∃ w', cycles os strategy n w = some w' ∧ w'.live = w.live := by
  refine ⟨cycle_balanced os h strategy w, fun n => ?_⟩
  induction n generalizing w with
  | zero => exact ⟨w, rfl, rfl⟩
  | succ n ih =>
    obtain ⟨l, hl, -, -, -, hlive⟩ := cycle_balanced os h strategy w
    obtain ⟨w', hw', hlive'⟩ := ih (destroy os (unlock os l.1 l.2).1 (unlock os l.1 l.2).2)
    refine ⟨w', ?_, hlive'.trans hlive⟩
    simp only [cycles, cycle, hl]
    exact hw'

/-- Witness of C7: 10000 cycles of the native variant on the successful primitives. -/
theorem cycles_leave_live_resources_witness :
    linux.Successful ∧
    ∃ w', cycles linux .NativeSpin 10000 World.boot = some w' ∧ w'.live = World.boot.live :=
  ⟨posix_successful (failing 0) 2,
   (cycles_leave_live_resources linux (posix_successful (failing 0) 2) .NativeSpin
     World.boot).2 10000⟩

/-! ## A second `lock()` by the holder -/

theorem wait_acquire_locked (attempts : Nat) : wait_acquire attempts .Locked = none := by
  induction attempts with
  | zero => rfl
  | succ n ih => simpa [wait_acquire, acquire_attempt] using ih

theorem lock_returns_iff (os : Env) (this : private_spinlock_t) (w : World) :
    (lock os this w).isSome = underlying_acquire_returns os this w := by
  cases this with
  | native addr s p =>
    cases hc : os.pthread_spin_lock (profiler_start os addr w).2 s <;>
      simp [lock, underlying_acquire_returns, hc]
  | fallback addr m =>
    cases hc : os.mutex_lock w m.state <;>
      simp [lock, underlying_acquire_returns, hc]

/-- C9: under both variants, a `lock()` on an instance whose primitive is `Locked`, with
nobody releasing it, does not return however many acquire attempts are made; and for any
underlying primitive `lock()` returns exactly when the underlying acquire returns, so the
layer has no holder check or other case that would let the call return. -/
theorem lock_while_held_never_returns (base : Env) (attempts : Nat)
    (this : private_spinlock_t) (w : World) (h : this.state = .Locked) :
    lock (posix base attempts) this w = none ∧
    ∀ os : Env, (lock os this w).isSome = underlying_acquire_returns os this w := by
  refine ⟨?_, fun os => lock_returns_iff os this w⟩
  cases this with
  | native addr s p =>
    change s = .Locked at h
    subst h
    simp [lock, posix, wait_acquire_locked]
  | fallback addr m =>
    change m.state = .Locked at h
    simp [lock, posix, h, wait_acquire_locked]

/-- Witness of C9: a held lock of the fallback variant, a thousand attempts. -/
theorem lock_while_held_never_returns_witness :
    (private_spinlock_t.fallback 0 ⟨1, .Locked⟩).state = .Locked ∧
    (lock (posix (failing 0) 1000) (.fallback 0 ⟨1, .Locked⟩) World.boot = none ∧
      ∀ os : Env, (lock os (.fallback 0 ⟨1, .Locked⟩) World.boot).isSome =
        underlying_acquire_returns os (.fallback 0 ⟨1, .Locked⟩) World.boot) :=
  ⟨rfl, lock_while_held_never_returns (failing 0) 1000 (.fallback 0 ⟨1, .Locked⟩)
    World.boot rfl⟩

/-! ## The fallback variant -/

/-- C10: on the fallback variant `lock()`, `unlock()` and `destroy()` perform exactly one call
of the wrapped mutex's operation of the same name, `destroy()` followed by freeing the
instance, and nothing else: none of the actions is a diagnostic entry or a profiler
action; a `lock()` whose mutex call does not return does not return either;
`spinlock_create()` attaches no profile. What is said of `unlock()`, `destroy()` and
`spinlock_create()` holds in every state of the mutex. -/
theorem fallback_only_delegates (os : Env) (addr : Nat) (m : mutex_t) (w : World) :
    (∀ state', os.mutex_lock w m.state = some state' →
      ∃ r, lock os (.fallback addr m) w = some r ∧
        emitted w r.2 = [.mutex_lock m.addr] ∧
        (emitted w r.2).countP Action.isDiagnostic = 0 ∧
        (emitted w r.2).countP Action.isProfiler = 0) ∧
    (os.mutex_lock w m.state = none → lock os (.fallback addr m) w = none) ∧
    (emitted w (unlock os (.fallback addr m) w).2 = [.mutex_unlock m.addr] ∧
      (emitted w (unlock os (.fallback addr m) w).2).countP Action.isDiagnostic = 0 ∧
      (emitted w (unlock os (.fallback addr m) w).2).countP Action.isProfiler = 0) ∧
    (emitted w (destroy os (.fallback addr m) w) = [.mutex_destroy m.addr, .free addr] ∧
      (emitted w (destroy os (.fallback addr m) w)).countP Action.isDiagnostic = 0 ∧
      (emitted w (destroy os (.fallback addr m) w)).countP Action.isProfiler = 0) ∧
    (emitted w (spinlock_create os .MutexFallback w).2 =
        [.malloc w.brk, .mutex_create (w.brk + 1)] ∧
      (spinlock_create os .MutexFallback w).1.profile? = none) := by
  have hl : emitted w (w.emit (.mutex_lock m.addr)) = [.mutex_lock m.addr] :=
    emitted_of_trace _ _ _ rfl
  have hu : emitted w (unlock os (.fallback addr m) w).2 = [.mutex_unlock m.addr] :=
    emitted_of_trace _ _ _ rfl
  have hd : emitted w (destroy os (.fallback addr m) w) =
      [.mutex_destroy m.addr, .free addr] :=
    emitted_of_trace _ _ _ (by simp [destroy, World.emit])
  have hc : emitted w (spinlock_create os .MutexFallback w).2 =
      [.malloc w.brk, .mutex_create (w.brk + 1)] :=
    emitted_of_trace _ _ _ (by simp [spinlock_create, mutex_create, World.emit])
  refine ⟨fun state' h => ⟨(.fallback addr { m with state := state' },
      w.emit (.mutex_lock m.addr)), ?_, hl, ?_, ?_⟩, fun h => ?_, ⟨hu, ?_, ?_⟩,
    ⟨hd, ?_, ?_⟩, hc, rfl⟩
  · simp only [lock, h]
  · rw [hl]; rfl
  · rw [hl]; rfl
  · simp only [lock, h]
  · rw [hu]; rfl
  · rw [hu]; rfl
  · rw [hd]; rfl
  · rw [hd]; rfl

/-- Witness of C10: on the successful primitives, a `lock()` of an unlocked fallback
instance, and `unlock()` and `destroy()` of one whose mutex is held. -/
theorem fallback_only_delegates_witness :
    linux.mutex_lock World.boot (⟨1, .Unlocked⟩ : mutex_t).state = some .Locked ∧
    (∃ r, lock linux (.fallback 0 ⟨1, .Unlocked⟩) World.boot = some r ∧
      emitted World.boot r.2 = [.mutex_lock 1] ∧
      (emitted World.boot r.2).countP Action.isDiagnostic = 0 ∧
      (emitted World.boot r.2).countP Action.isProfiler = 0) ∧
    (emitted World.boot (unlock linux (.fallback 0 ⟨1, .Locked⟩) World.boot).2 =
        [.mutex_unlock 1] ∧
      (emitted World.boot (unlock linux (.fallback 0 ⟨1, .Locked⟩) World.boot).2).countP
        Action.isDiagnostic = 0 ∧
      (emitted World.boot (unlock linux (.fallback 0 ⟨1, .Locked⟩) World.boot).2).countP
        Action.isProfiler = 0) ∧
    (emitted World.boot (destroy linux (.fallback 0 ⟨1, .Locked⟩) World.boot) =
        [.mutex_destroy 1, .free 0] ∧
      (emitted World.boot (destroy linux (.fallback 0 ⟨1, .Locked⟩) World.boot)).countP
        Action.isDiagnostic = 0 ∧
      (emitted World.boot (destroy linux (.fallback 0 ⟨1, .Locked⟩) World.boot)).countP
        Action.isProfiler = 0) :=
  ⟨rfl,
   (fallback_only_delegates linux 0 ⟨1, .Unlocked⟩ World.boot).1 .Locked rfl,
   (fallback_only_delegates linux 0 ⟨1, .Locked⟩ World.boot).2.2.1,
   (fallback_only_delegates linux 0 ⟨1, .Locked⟩ World.boot).2.2.2.1⟩

/-! ## Mutual exclusion among threads -/

theorem wait_acquire_some (attempts : Nat) (s s' : LockState)
    (h : wait_acquire attempts s = some s') : s = .Unlocked ∧ s' = .Locked := by
  cases s with
  | Locked => rw [wait_acquire_locked] at h; cases h
  | Unlocked =>
    cases attempts with
    | zero => cases h
    | succ n =>
      simp only [wait_acquire, acquire_attempt, Option.some.injEq] at h
      exact ⟨rfl, h.symm⟩

theorem lock_posix_some (base : Env) (attempts : Nat) (this : private_spinlock_t)
    (w : World) (r : private_spinlock_t × World)
    (h : lock (posix base attempts) this w = some r) :
    this.state = .Unlocked ∧ r.1.state = .Locked := by
  cases this with
  | native addr s p =>
    cases hw : wait_acquire attempts s with
    | none => simp [lock, posix, hw] at h
    | some s' =>
      obtain ⟨h1, h2⟩ := wait_acquire_some attempts s s' hw
      simp only [lock, posix, hw, Option.map_some', Option.some.injEq] at h
      subst h
      exact ⟨h1, h2⟩
  | fallback addr m =>
    cases hw : wait_acquire attempts m.state with
    | none => simp [lock, posix, hw] at h
    | some s' =>
      obtain ⟨h1, h2⟩ := wait_acquire_some attempts m.state s' hw
      simp only [lock, posix, hw, Option.some.injEq] at h
      subst h
      exact ⟨h1, h2⟩

theorem unlock_posix_state (base : Env) (attempts : Nat) (this : private_spinlock_t)
    (w : World) : (unlock (posix base attempts) this w).1.state = .Unlocked := by
  cases this <;> rfl

theorem split_at (l : List Thread) (i : Nat) (t : Thread) (h : l[i]? = some t) :
    ∃ before after, l = before ++ t :: after ∧
      ∀ t', l.set i t' = before ++ t' :: after := by
  induction l generalizing i with
  | nil => simp at h
  | cons x xs ih =>
    cases i with
    | zero =>
      simp only [List.getElem?_cons_zero, Option.some.injEq] at h
      subst h
      exact ⟨[], xs, rfl, fun _ => rfl⟩
    | succ j =>
      simp only [List.getElem?_cons_succ] at h
      obtain ⟨before, after, h1, h2⟩ := ih j h
      refine ⟨x :: before, after, by rw [h1]; rfl, fun t' => ?_⟩
      rw [List.set_cons_succ, h2 t']
      rfl

theorem others_idle (before after : List Thread) (t : Thread) (n : Nat)
    (ht : t.in_critical_section = true)
    (h : (before ++ t :: after).countP Thread.in_critical_section = n) (hn : n ≤ 1) :
    n = 1 ∧ before.countP Thread.in_critical_section = 0 ∧
      after.countP Thread.in_critical_section = 0 ∧
      (∀ x ∈ before, x.pc = .idle) ∧ (∀ x ∈ after, x.pc = .idle) := by
  rw [List.countP_append, List.countP_cons_of_pos _ _ ht] at h
  have hb : before.countP Thread.in_critical_section = 0 := by omega
  have ha : after.countP Thread.in_critical_section = 0 := by omega
  refine ⟨by omega, hb, ha, ?_, ?_⟩
  · intro x hx
    have := (List.countP_eq_zero.mp hb) x hx
    cases hp : x.pc <;> simp [Thread.in_critical_section, hp] at this ⊢
  · intro x hx
    have := (List.countP_eq_zero.mp ha) x hx
    cases hp : x.pc <;> simp [Thread.in_critical_section, hp] at this ⊢

theorem step_inv (base : Env) (attempts total i : Nat) (c : Config) (h : Inv total c) :
    Inv total (step (posix base attempts) i c) := by
  obtain ⟨this, world, counter, threads⟩ := c
  cases ht : threads[i]? with
  | none => simpa only [step, ht] using h
  | some t =>
    obtain ⟨before, after, hsplit, hset⟩ := split_at threads i t ht
    by_cases h0 : t.todo = 0
    · simpa only [step, ht, h0, if_true] using h
    · obtain ⟨hcs, hsum, hall⟩ := h
      simp only at hcs hsum hall
      subst hsplit
      have hle : (if this.state = LockState.Locked then 1 else 0) ≤ 1 := by
        split <;> omega
      have ht_all := hall t (by simp)
      obtain ⟨tpc, ttodo⟩ := t
      simp only at h0 ht_all
      cases tpc with
      | idle =>
        cases hl : lock (posix base attempts) this world with
        | none => 
          simp only [step, ht, h0, if_false, hl]
          exact ⟨hcs, hsum, hall⟩
        | some r =>
          obtain ⟨hu, hlk⟩ := lock_posix_some base attempts this world r hl
          simp only [step, ht, h0, if_false, hl, hset]
          refine ⟨?_, ?_, ?_⟩
          · rw [hu] at hcs
            rw [hlk]
            rw [List.countP_append, List.countP_cons_of_neg _ _ (by simp [Thread.in_critical_section])]
              at hcs
            rw [List.countP_append, List.countP_cons_of_pos _ _ (by simp [Thread.in_critical_section])]
            simp only [if_true] at hcs ⊢
            simp only [reduceCtorEq, if_false] at hcs
            omega
          · simpa [Thread.pending] using hsum
          · intro x hx
            simp only [List.mem_append, List.mem_cons] at hx
            rcases hx with hx | hx | hx
            · exact hall x (by simp [hx])
            · subst hx
              exact ⟨Or.inr (by simp only; omega), by simp⟩
            · exact hall x (by simp [hx])
      | read =>
        simp only [step, ht, h0, if_false, hset]
        refine ⟨?_, ?_, ?_⟩
        · rw [← hcs, List.countP_append, List.countP_append,
            List.countP_cons_of_pos _ _ (by simp [Thread.in_critical_section]),
            List.countP_cons_of_pos _ _ (by simp [Thread.in_critical_section])]
        · simpa [Thread.pending] using hsum
        · intro x hx
          simp only [List.mem_append, List.mem_cons] at hx
          rcases hx with hx | hx | hx
          · exact hall x (by simp [hx])
          · subst hx
            refine ⟨Or.inr ?_, by simp⟩
            rcases ht_all.1 with hi | hi
            · cases hi
            · exact hi
          · exact hall x (by simp [hx])
      | write tmp =>
        obtain ⟨-, hb, ha, hbi, hai⟩ := others_idle before after ⟨.write tmp, ttodo⟩ _
          (by simp [Thread.in_critical_section]) hcs hle
        have htmp : tmp = counter := ht_all.2 tmp rfl
        have htodo : 1 ≤ ttodo := by
          rcases ht_all.1 with hi | hi
          · cases hi
          · exact hi
        simp only [step, ht, h0, if_false, hset]
        refine ⟨?_, ?_, ?_⟩
        · rw [← hcs, List.countP_append, List.countP_append,
            List.countP_cons_of_pos _ _ (by simp [Thread.in_critical_section]),
            List.countP_cons_of_pos _ _ (by simp [Thread.in_critical_section])]
        · simp only [List.map_append, List.map_cons, List.sum_append, List.sum_cons,
            Thread.pending] at hsum ⊢
          omega
        · intro x hx
          simp only [List.mem_append, List.mem_cons] at hx
          rcases hx with hx | hx | hx
          · refine ⟨(hall x (by simp [hx])).1, fun v hv => ?_⟩
            rw [hbi x hx] at hv
            cases hv
          · subst hx
            exact ⟨Or.inr htodo, by simp⟩
          · refine ⟨(hall x (by simp [hx])).1, fun v hv => ?_⟩
            rw [hai x hx] at hv
            cases hv
      | release =>
        obtain ⟨-, hb, ha, -, -⟩ := others_idle before after ⟨.release, ttodo⟩ _
          (by simp [Thread.in_critical_section]) hcs hle
        simp only [step, ht, h0, if_false, hset]
        refine ⟨?_, ?_, ?_⟩
        · rw [unlock_posix_state, List.countP_append,
            List.countP_cons_of_neg _ _ (by simp [Thread.in_critical_section]), hb, ha]
          simp
        · simpa [Thread.pending] using hsum
        · intro x hx
          simp only [List.mem_append, List.mem_cons] at hx
          rcases hx with hx | hx | hx
          · exact hall x (by simp [hx])
          · subst hx
            exact ⟨Or.inl rfl, by simp⟩
          · exact hall x (by simp [hx])

theorem exec_inv (base : Env) (attempts total : Nat) (schedule : List Nat) (c : Config)
    (h : Inv total c) : Inv total (exec (posix base attempts) schedule c) := by
  induction schedule generalizing c with
  | nil => exact h
  | cons i rest ih => exact ih _ (step_inv base attempts total i c h)

theorem start_inv (os : Env) (strategy : Strategy) (w : World) (loops : List Nat) :
    Inv loops.sum (start os strategy w loops) := by
  refine ⟨?_, ?_, ?_⟩
  · simp only [start, create_state, reduceCtorEq, if_false]
    rw [List.countP_eq_zero]
    intro t ht
    simp only [List.mem_map] at ht
    obtain ⟨m, -, rfl⟩ := ht
    simp [Thread.in_critical_section]
  · simp only [start, List.map_map, Nat.zero_add]
    congr 1
    exact List.map_id loops
  · intro t ht
    simp only [start, List.mem_map] at ht
    obtain ⟨m, -, rfl⟩ := ht
    exact ⟨Or.inl rfl, by simp⟩

theorem finished_inv (total : Nat) (c : Config) (h : Inv total c)
    (hf : c.finished = true) : c.counter = total ∧ c.this.state = .Unlocked := by
  obtain ⟨hcs, hsum, hall⟩ := h
  have hidle : ∀ t ∈ c.threads, t.pc = .idle ∧ t.todo = 0 := by
    intro t ht
    have h0 : t.todo = 0 := by
      simp only [Config.finished, List.all_eq_true, beq_iff_eq] at hf
      exact hf t ht
    rcases (hall t ht).1 with hi | hi
    · exact ⟨hi, h0⟩
    · omega
  have hpend : (c.threads.map Thread.pending).sum = 0 := by
    apply List.sum_eq_zero
    intro x hx
    simp only [List.mem_map] at hx
    obtain ⟨t, ht, rfl⟩ := hx
    simp [Thread.pending, (hidle t ht).1, (hidle t ht).2]
  have hnone : c.threads.countP Thread.in_critical_section = 0 := by
    rw [List.countP_eq_zero]
    intro t ht
    simp [Thread.in_critical_section, (hidle t ht).1]
  refine ⟨by omega, ?_⟩
  rw [hnone] at hcs
  cases hs : c.this.state with
  | Unlocked => rfl
  | Locked => simp [hs] at hcs

theorem exec_append (os : Env) (xs ys : List Nat) (c : Config) :
    exec os (xs ++ ys) c = exec os ys (exec os xs c) := by
  induction xs generalizing c with
  | nil => rfl
  | cons i rest ih => exact ih _

theorem at_length (before after : List Thread) (t : Thread) :
    (before ++ t :: after)[before.length]? = some t ∧
    ∀ t', (before ++ t :: after).set before.length t' = before ++ t' :: after := by
  induction before with
  | nil => exact ⟨by simp, fun _ => rfl⟩
  | cons x xs ih =>
    refine ⟨by simpa using ih.1, fun t' => ?_⟩
    simp only [List.cons_append, List.length_cons, List.set_cons_succ, ih.2 t']

theorem one_iteration (base : Env) (a : Nat) (c : Config) (before after : List Thread)
    (m : Nat) (hs : c.this.state = .Unlocked)
    (ht : c.threads = before ++ ⟨.idle, m + 1⟩ :: after) :
    (exec (posix base (a + 1)) (List.replicate 4 before.length) c).this.state = .Unlocked ∧
    (exec (posix base (a + 1)) (List.replicate 4 before.length) c).threads =
      before ++ ⟨.idle, m⟩ :: after := by
  obtain ⟨this, world, counter, threads⟩ := c
  simp only at hs ht
  subst ht
  obtain ⟨r, hr, -⟩ := lock_successful _ (posix_successful base a) this world hs
  have h1 := at_length before after ⟨.idle, m + 1⟩
  have h2 := at_length before after ⟨.read, m + 1⟩
  have h3 := at_length before after ⟨.write counter, m + 1⟩
  have h4 := at_length before after ⟨.release, m + 1⟩
  simp only [List.replicate, exec, step, h1.1, h1.2, h2.1, h2.2, h3.1, h3.2, h4.1, h4.2, hr,
    Nat.add_one_ne_zero, if_false, Nat.add_sub_cancel]
  exact ⟨unlock_posix_state base (a + 1) _ _, trivial⟩

theorem all_iterations (base : Env) (a m : Nat) (c : Config) (before after : List Thread)
    (hs : c.this.state = .Unlocked) (ht : c.threads = before ++ ⟨.idle, m⟩ :: after) :
    (exec (posix base (a + 1)) (List.replicate (4 * m) before.length) c).this.state
      = .Unlocked ∧
    (exec (posix base (a + 1)) (List.replicate (4 * m) before.length) c).threads =
      before ++ ⟨.idle, 0⟩ :: after := by
  induction m generalizing c with
  | zero => exact ⟨hs, ht⟩
  | succ m ih =>
    have h4 : 4 * (m + 1) = 4 + 4 * m := by omega
    rw [h4, List.replicate_add, exec_append]
    obtain ⟨h1, h2⟩ := one_iteration base a c before after m hs ht
    exact ih _ h1 h2

theorem sequential_finishes (base : Env) (a : Nat) (loops : List Nat) (done : List Thread)
    (c : Config) (hs : c.this.state = .Unlocked) (hd : ∀ t ∈ done, t.todo = 0)
    (ht : c.threads = done ++ loops.map (fun m => ⟨.idle, m⟩)) :
    (exec (posix base (a + 1)) (sequential done.length loops) c).finished = true := by
  induction loops generalizing done c with
  | nil =>
    simp only [List.map_nil, List.append_nil] at ht
    simp only [sequential, exec, Config.finished, ht, List.all_eq_true, beq_iff_eq]
    exact hd
  | cons m rest ih =>
    simp only [sequential, exec_append]
    obtain ⟨h1, h2⟩ := all_iterations base a m c done
      (rest.map (fun m => ⟨.idle, m⟩)) hs (by simpa using ht)
    have := ih (done ++ [⟨.idle, 0⟩]) _ h1
      (by
        intro t htm
        simp only [List.mem_append, List.mem_singleton] at htm
        rcases htm with htm | htm
        · exact hd t htm
        · rw [htm])
      (by simpa using h2)
    simpa using this

/-- C8: any number of threads, thread `j` running `lock(); counter++; unlock()` as often as
the `j`-th entry of `loops` says on one freshly created instance, the increment being a
separate read and write, over the primitives of section 4.1. In every interleaving, at
every moment: at most one thread is inside the critical section, and the counter plus the
increments still to be performed equals the number asked for; once all threads are done
the counter equals the total number of increments and the lock is `Unlocked`. Under both
variants. There is an interleaving in which all threads get done, as soon as an acquire
makes at least one attempt. -/
theorem mutual_exclusion (base : Env) (attempts : Nat) (strategy : Strategy) (w : World)
    (loops schedule : List Nat) :
    (exec (posix base attempts) schedule
        (start (posix base attempts) strategy w loops)).threads.countP
      Thread.in_critical_section ≤ 1 ∧
    (exec (posix base attempts) schedule
        (start (posix base attempts) strategy w loops)).counter +
      ((exec (posix base attempts) schedule
        (start (posix base attempts) strategy w loops)).threads.map Thread.pending).sum
      = loops.sum ∧
    ((exec (posix base attempts) schedule
        (start (posix base attempts) strategy w loops)).finished = true →
      (exec (posix base attempts) schedule
        (start (posix base attempts) strategy w loops)).counter = loops.sum ∧
      (exec (posix base attempts) schedule
        (start (posix base attempts) strategy w loops)).this.state = .Unlocked) ∧
    (0 < attempts →
      (exec (posix base attempts) (sequential 0 loops)
        (start (posix base attempts) strategy w loops)).finished = true) := by
  have h := exec_inv base attempts loops.sum schedule _
    (start_inv (posix base attempts) strategy w loops)
  refine ⟨?_, h.2.1, fun hf => finished_inv _ _ h hf, fun ha => ?_⟩
  · rw [h.1]
    split <;> omega
  · obtain ⟨a, rfl⟩ := Nat.exists_eq_succ_of_ne_zero (Nat.pos_iff_ne_zero.mp ha)
    exact sequential_finishes base a loops [] _ (create_state _ strategy w)
      (fun _ hm => by cases hm) rfl

/-- Witness of C8: two threads, two and one increments, the second thread trying to lock
while the first holds the lock; and the two threads of the example scenario, 1000
increments each, ending at 2000. -/
theorem mutual_exclusion_witness :
    ((exec linux [0, 1, 0, 1, 0, 0, 1, 1, 1, 1, 1, 0, 0, 0, 0]
        (start linux .NativeSpin World.boot [2, 1])).finished = true ∧ 0 < 3) ∧
    ((exec linux [0, 1, 0, 1, 0, 0, 1, 1, 1, 1, 1, 0, 0, 0, 0]
        (start linux .NativeSpin World.boot [2, 1])).counter = 3 ∧
      (exec linux [0, 1, 0, 1, 0, 0, 1, 1, 1, 1, 1, 0, 0, 0, 0]
        (start linux .NativeSpin World.boot [2, 1])).this.state = .Unlocked) ∧
    ((exec linux (sequential 0 [1000, 1000])
        (start linux .NativeSpin World.boot [1000, 1000])).counter = 2000 ∧
      (exec linux (sequential 0 [1000, 1000])
        (start linux .NativeSpin World.boot [1000, 1000])).this.state = .Unlocked) :=
  ⟨⟨rfl, by decide⟩,
   (mutual_exclusion (failing 0) 3 .NativeSpin World.boot [2, 1]
     [0, 1, 0, 1, 0, 0, 1, 1, 1, 1, 1, 0, 0, 0, 0]).2.2.1 rfl,
   (mutual_exclusion (failing 0) 3 .NativeSpin World.boot [1000, 1000]
     (sequential 0 [1000, 1000])).2.2.1
     ((mutual_exclusion (failing 0) 3 .NativeSpin World.boot [1000, 1000]
       (sequential 0 [1000, 1000])).2.2.2 (by decide))⟩

/-- Without a primitive that makes the second thread wait, the same loop loses an update:
two threads, one increment each, and the counter ends at 1. -/
theorem lost_update_without_waiting :
    (exec (failing 0) [0, 1, 0, 1, 0, 1, 0, 1]
      (start (failing 0) .NativeSpin World.boot [1, 1])).finished = true ∧
    (exec (failing 0) [0, 1, 0, 1, 0, 1, 0, 1]
      (start (failing 0) .NativeSpin World.boot [1, 1])).counter = 1 :=
  ⟨rfl, rfl⟩

end Spinlock
